import Mathlib

/-!
# Verification of the plugy plugin runtime

A shallow embedding, in Lean 4, of the host-side plugin runtime of the
`plugy` repository: the bitwise packed-pointer codec (`plugy-core/src/bitwise.rs`),
the wire codecs (`plugy-core/src/codec.rs` delegating to MessagePack via
`rmp_serde`, and the `bincode` encoding used by the runtime and the guest
helpers), the guest allocator (`plugy-core/src/guest.rs`), the runtime registry
(`plugy-runtime/src/lib.rs`: `Runtime::load`/`load_with`, `get_plugin_by_name`),
the typed invocation path (`Func::call_checked`) and the macro-generated
host-side context handler (`plugy-macros/src/lib.rs`, `context`).

Machine integers are modelled as `Nat` with explicit `% 2 ^ w` truncation at the
points where the Rust code truncates.  Fallible operations return `Except` /
`Option`; external `wasmtime` primitives (guest memory, typed functions) are
modelled as an explicit interface record whose operations thread a state, and
an instrumented variant of that interface records the sequence of boundary
events so that ordering and resource-usage properties can be stated.

The file is organised as definitions first, then all theorems.
-/

namespace Plugy

/-! ## Bitwise pair codec (`plugy-core/src/bitwise.rs`) -/

/-- `pub const fn from_bitwise(value: u64) -> (u32, u32)`:
`((value << 32 >> 32) as u32, (value >> 32) as u32)`.  The `u64` shifts operate
modulo `2 ^ 64`; the `as u32` casts truncate modulo `2 ^ 32`. -/
def from_bitwise (value : Nat) : Nat × Nat :=
  ((((value <<< 32) % 2 ^ 64) >>> 32) % 2 ^ 32, (value >>> 32) % 2 ^ 32)

/-- `pub const fn into_bitwise(a: u32, b: u32) -> u64`:
`(a as u64) | (b as u64) << 32`, the shift truncating modulo `2 ^ 64`. -/
def into_bitwise (a b : Nat) : Nat :=
  a ||| ((b <<< 32) % 2 ^ 64)

/-! ## Little-endian byte strings

Helpers modelling the fixed-width little-endian integer layout used by the
external `bincode` codec (the format `Plugin::data`/`Plugin::update`,
`Func::call_checked`, the guest helpers and the generated context handlers all
delegate to). -/

/-- The `k` little-endian bytes of `n` (truncating at `256 ^ k`). -/
def leBytes : Nat → Nat → List Nat
  | 0, _ => []
  | k + 1, n => n % 256 :: leBytes k (n / 256)

/-- Recompose a little-endian byte string into a number. -/
def fromLE : List Nat → Nat
  | [] => 0
  | b :: bs => b + 256 * fromLE bs

/-- Consume `k` bytes from the input and decode them little-endian; fails when
fewer than `k` bytes remain. -/
def readLE (k : Nat) (input : List Nat) : Option (Nat × List Nat) :=
  if k ≤ input.length then some (fromLE (input.take k), input.drop k) else none

/-! ## The `bincode` wire model

`bincode` (default configuration, as used by the repository) lays values out
with fixed-width little-endian integers, a single byte `0`/`1` for `bool`,
a `u64` length prefix followed by the raw bytes for byte strings, and the
concatenation of the component encodings for tuples.  Decoding is directed by
the statically known target type. -/

/-- Target types of the modelled `bincode` universe. -/
inductive BTy where
  | u32
  | u64
  | bool
  | bytes
  | pair (a b : BTy)
deriving DecidableEq, Repr

/-- Values of the modelled `bincode` universe. -/
inductive BValue where
  | u32 (n : Nat)
  | u64 (n : Nat)
  | bool (b : Bool)
  | bytes (bs : List Nat)
  | pair (a b : BValue)
deriving DecidableEq, Repr

/-- The type of a value. -/
def tyOf : BValue → BTy
  | .u32 _ => .u32
  | .u64 _ => .u64
  | .bool _ => .bool
  | .bytes _ => .bytes
  | .pair a b => .pair (tyOf a) (tyOf b)

/-- Well-formedness: machine-integer fields are in range, bytes are bytes. -/
def wfB : BValue → Bool
  | .u32 n => n < 2 ^ 32
  | .u64 n => n < 2 ^ 64
  | .bool _ => true
  | .bytes bs => bs.length < 2 ^ 64 && bs.all (· < 256)
  | .pair a b => wfB a && wfB b

/-- `bincode::serialize`, on the modelled universe (total there, as in the
source, where serialization of these types cannot fail). -/
def bincodeSer : BValue → List Nat
  | .u32 n => leBytes 4 n
  | .u64 n => leBytes 8 n
  | .bool b => [if b then 1 else 0]
  | .bytes bs => leBytes 8 bs.length ++ bs
  | .pair a b => bincodeSer a ++ bincodeSer b

/-- `bincode::deserialize`, type-directed, consuming a prefix of the input. -/
def bincodeDe : BTy → List Nat → Option (BValue × List Nat)
  | .u32, input => (readLE 4 input).map fun p => (.u32 p.1, p.2)
  | .u64, input => (readLE 8 input).map fun p => (.u64 p.1, p.2)
  | .bool, input =>
    match input with
    | 0 :: r => some (.bool false, r)
    | 1 :: r => some (.bool true, r)
    | _ => none
  | .bytes, input =>
    match readLE 8 input with
    | none => none
    | some (len, r) =>
      if len ≤ r.length then some (.bytes (r.take len), r.drop len) else none
  | .pair t1 t2, input =>
    match bincodeDe t1 input with
    | none => none
    | some (a, r) =>
      match bincodeDe t2 r with
      | none => none
      | some (b, r2) => some (.pair a b, r2)

/-! ## The plugin descriptor (`plugy-runtime/src/lib.rs`, `struct Plugin`) -/

/-- `pub struct Plugin<D = Vec<u8>> { name, plugin_type, data }`, at the
default `D = Vec<u8>`. -/
structure Plugin where
  name : String
  plugin_type : String
  data : List Nat
deriving DecidableEq, Repr

/-- `Plugin::data::<T>()`: `bincode::deserialize(&self.data)`, the target type
supplied statically (named `dataTyped` here because the Lean field projection
already uses the source name `data`). -/
def Plugin.dataTyped (p : Plugin) (t : BTy) : Option BValue :=
  (bincodeDe t p.data).map fun q => q.1

/-- `Plugin::update::<T>(&mut self, value)`:
`self.data = bincode::serialize(value).unwrap()` (total on the modelled
universe, as in the source). -/
def Plugin.update (p : Plugin) (v : BValue) : Plugin :=
  { p with data := bincodeSer v }

/-! ## Runtime registry (`plugy-runtime/src/lib.rs`)

External `wasmtime` entities (engine, compiled modules, instances, memories and
typed function handles) are opaque to the runtime; they are modelled by
numeric identities.  The registry's `DashMap<&str, RuntimeModule>` is modelled
as an association list with the map's insert/lookup semantics. -/

/-- `pub struct RuntimeCaller<P> { memory, alloc_fn, dealloc_fn, plugin }`, the
bundle stored in the store's user-data slot (`P = Plugin`). -/
structure RuntimeCaller where
  memory : Nat
  alloc_fn : Nat
  dealloc_fn : Nat
  plugin : Plugin
deriving DecidableEq, Repr

/-- `pub struct RuntimeModule<P> { inner, store, instance }`.  The store is
represented by its user-data slot `Option<RuntimeCaller>`; the instance by its
identity (`instance` is a Lean keyword, hence `instanceId`). -/
structure RuntimeModule where
  inner : Nat
  storeData : Option RuntimeCaller
  instanceId : Nat
deriving DecidableEq, Repr

/-- The `Runtime` registry: the name-indexed table of loaded modules.  (The
engine and linker are engine-side collaborators with no bearing on the
registry claims.) -/
structure Runtime where
  modules : List (String × RuntimeModule)
deriving DecidableEq, Repr

/-- `Runtime::new()`: empty registry. -/
def Runtime.new : Runtime := { modules := [] }

/-- Outcomes of the external engine/loader steps consumed by
`Runtime::load`/`load_with`, one field per fallible call site, each identified
by the value it would produce.  Engine-side errors are opaque codes. -/
structure LoadEnv where
  bytes : Except Nat (List Nat)
  compile : List Nat → Except Nat Nat
  instantiate_pre : Nat → Except Nat Nat
  instantiate_async : Nat → Except Nat Nat
  get_memory : Nat → Option Nat
  get_alloc : Nat → Except Nat Nat
  get_dealloc : Nat → Except Nat Nat

/-- The error taxonomy surfaced by the runtime, as `anyhow` error values:
engine/loader errors are forwarded (`external`), `context("missing memory")`
and `context("missing plugin requested, ...")` are distinct messages, `decode`
is a `bincode` failure, and `panicNone` models the `.unwrap()` panic on an
empty user-data slot. -/
inductive RtErr where
  | external (code : Nat)
  | missingMemory
  | missingPlugin
  | decode
  | panicNone
deriving DecidableEq, Repr

/-- Steps (1)-(8) of `Runtime::load`/`load_with` up to and excluding the
registry insert: fetch bytes, compile, prepare via the linker, instantiate on
a fresh store (created with user data `None`), resolve `memory`, `alloc` and
`dealloc`, then fill the user-data slot with the `RuntimeCaller` bundle.  Any
failure aborts the whole load.  Mirrors the source line by line. -/
def loadSteps (env : LoadEnv) (desc : Plugin) : Except RtErr RuntimeModule :=
  match env.bytes with
  | .error e => .error (.external e)
  | .ok bytes =>
    match env.compile bytes with
    | .error e => .error (.external e)
    | .ok moduleId =>
      match env.instantiate_pre moduleId with
      | .error e => .error (.external e)
      | .ok preId =>
        match env.instantiate_async preId with
        | .error e => .error (.external e)
        | .ok instanceId =>
          match env.get_memory instanceId with
          | none => .error .missingMemory
          | some memory =>
            match env.get_alloc instanceId with
            | .error e => .error (.external e)
            | .ok alloc_fn =>
              match env.get_dealloc instanceId with
              | .error e => .error (.external e)
              | .ok dealloc_fn =>
                .ok { inner := moduleId,
                      storeData :=
                        some { memory, alloc_fn, dealloc_fn, plugin := desc },
                      instanceId }

/-- `DashMap::insert`: bind `name` to `rec`, replacing an existing binding. -/
def insertMod (ms : List (String × RuntimeModule)) (name : String)
    (rec : RuntimeModule) : List (String × RuntimeModule) :=
  if ms.any (fun p => p.1 == name) then
    ms.map fun p => if p.1 == name then (name, rec) else p
  else ms ++ [(name, rec)]

/-- `DashMap::get`. -/
def lookupMod (ms : List (String × RuntimeModule)) (name : String) :
    Option RuntimeModule :=
  match ms.find? (fun p => p.1 == name) with
  | none => none
  | some p => some p.2

/-- `pub struct PluginHandle<P> { instance, store }`: the instance identity and
the shared store (represented by its user-data slot). -/
structure PluginHandle where
  instanceId : Nat
  storeData : Option RuntimeCaller
deriving DecidableEq, Repr

/-- `Runtime::get_plugin_by_name`: look the record up and build a handle from
its store and instance; a missing name is the "missing plugin requested"
error. -/
def getPluginByName (rt : Runtime) (name : String) : Except RtErr PluginHandle :=
  match lookupMod rt.modules name with
  | none => .error .missingPlugin
  | some m => .ok { instanceId := m.instanceId, storeData := m.storeData }

/-- `Runtime::load`/`load_with`: run steps (1)-(8); on failure the registry is
untouched; on success insert the record under `loader.name()` and return
`get_plugin_by_name(name)`.  The returned `Runtime` is the registry after the
call. -/
def load (rt : Runtime) (env : LoadEnv) (name : String) (desc : Plugin) :
    Except RtErr PluginHandle × Runtime :=
  match loadSteps env desc with
  | .error e => (.error e, rt)
  | .ok record =>
    let rt2 : Runtime := { modules := insertMod rt.modules name record }
    (getPluginByName rt2 name, rt2)

/-! ## The wasm boundary interface

`Func::call_checked` and the generated context handlers drive the guest
through five `wasmtime` primitives.  They are modelled as an interface record
over an abstract guest state `σ`; every operation returns its result (engine
errors as opaque codes) together with the successor state. -/

/-- The `wasmtime` operations used by the invocation paths. -/
structure WasmIface (σ : Type) where
  alloc_fn : σ → Nat → Except Nat Nat × σ
  dealloc_fn : σ → Nat → Except Nat Unit × σ
  memory_write : σ → Nat → List Nat → Except Nat Unit × σ
  memory_read : σ → Nat → Nat → Except Nat (List Nat) × σ
  inner_wasm_fn : σ → Nat → Except Nat Nat × σ

/-- `Func::call_checked` (`plugy-runtime/src/lib.rs` lines 467-486), exactly
as written: unwrap the store's user data (panic when `None`), destructure
`RuntimeCaller { memory, alloc_fn, .. }` — note `dealloc_fn` is discarded —
serialize, `alloc_fn.call_async(len)`, `memory.write(ptr, buffer)`,
`inner_wasm_fn.call_async(into_bitwise(ptr, len))`, `from_bitwise` the result,
`memory.read`, deserialize.  Every `?` propagates the error; no `dealloc`
call occurs anywhere on this path. -/
def call_checked {σ : Type} (w : WasmIface σ) (sd : Option RuntimeCaller)
    (retTy : BTy) (s : σ) (value : BValue) : Except RtErr BValue × σ :=
  match sd with
  | none => (.error .panicNone, s)
  | some _ =>
    let buffer := bincodeSer value
    let len := buffer.length
    match w.alloc_fn s len with
    | (.error e, s) => (.error (.external e), s)
    | (.ok ptr, s) =>
      match w.memory_write s ptr buffer with
      | (.error e, s) => (.error (.external e), s)
      | (.ok _, s) =>
        match w.inner_wasm_fn s (into_bitwise ptr len) with
        | (.error e, s) => (.error (.external e), s)
        | (.ok out, s) =>
          let (ptr2, len2) := from_bitwise out
          match w.memory_read s ptr2 len2 with
          | (.error e, s) => (.error (.external e), s)
          | (.ok buffer2, s) =>
            match bincodeDe retTy buffer2 with
            | none => (.error .decode, s)
            | some (v, _) => (.ok v, s)

/-- The macro-generated host import handler for `env._plugy_context_m`
(`plugy-macros/src/lib.rs`, `context`, lines 320-359), exactly as generated:
unwrap the caller's user data, `from_bitwise` the packed argument, read the
guest buffer, `dealloc_fn.call_async(into_bitwise(ptr, len))`, deserialize
the argument tuple, invoke the async host service with the caller view,
serialize its result, `alloc_fn.call_async(|out|)`, write, and return
`into_bitwise(ptr, |out|)`.  The generated code unwraps every step; a failed
step is modelled as the corresponding error outcome. -/
def context_handler {σ : Type} (w : WasmIface σ) (sd : Option RuntimeCaller)
    (svc : σ → BValue → BValue × σ) (argTy : BTy) (s : σ) (packed : Nat) :
    Except RtErr Nat × σ :=
  match sd with
  | none => (.error .panicNone, s)
  | some _ =>
    let (ptr, len) := from_bitwise packed
    match w.memory_read s ptr len with
    | (.error e, s) => (.error (.external e), s)
    | (.ok buffer, s) =>
      match w.dealloc_fn s (into_bitwise ptr len) with
      | (.error e, s) => (.error (.external e), s)
      | (.ok _, s) =>
        match bincodeDe argTy buffer with
        | none => (.error .decode, s)
        | some (args, _) =>
          let (ret, s2) := svc s args
          let out := bincodeSer ret
          match w.alloc_fn s2 out.length with
          | (.error e, s) => (.error (.external e), s)
          | (.ok optr, s) =>
            match w.memory_write s optr out with
            | (.error e, s) => (.error (.external e), s)
            | (.ok _, s) => (.ok (into_bitwise optr out.length), s)

/-! ## Instrumentation: observing the boundary events -/

/-- One observable host↔guest boundary event. -/
inductive WEvent where
  | alloc (len ptr : Nat)
  | dealloc (packed : Nat)
  | write (ptr len : Nat)
  | read (ptr len : Nat)
  | call (packed : Nat)
  | invoke
deriving DecidableEq, Repr

/-- Wrap an interface so that every operation appends its event to a trace. -/
def instrument {σ : Type} (w : WasmIface σ) : WasmIface (σ × List WEvent) where
  alloc_fn := fun se len =>
    match w.alloc_fn se.1 len with
    | (r, s2) =>
      (r, (s2, se.2 ++ [.alloc len (match r with | .ok p => p | .error _ => 0)]))
  dealloc_fn := fun se v =>
    match w.dealloc_fn se.1 v with
    | (r, s2) => (r, (s2, se.2 ++ [.dealloc v]))
  memory_write := fun se ptr bs =>
    match w.memory_write se.1 ptr bs with
    | (r, s2) => (r, (s2, se.2 ++ [.write ptr bs.length]))
  memory_read := fun se ptr len =>
    match w.memory_read se.1 ptr len with
    | (r, s2) => (r, (s2, se.2 ++ [.read ptr len]))
  inner_wasm_fn := fun se packed =>
    match w.inner_wasm_fn se.1 packed with
    | (r, s2) => (r, (s2, se.2 ++ [.call packed]))

/-- Wrap a host service so its invocation appends an `invoke` event. -/
def instrumentSvc {σ : Type} (svc : σ → BValue → BValue × σ) :
    σ × List WEvent → BValue → BValue × (σ × List WEvent) :=
  fun se v =>
    match svc se.1 v with
    | (r, s2) => (r, (s2, se.2 ++ [.invoke]))

/-- Number of `dealloc` events in a trace. -/
def countDealloc (es : List WEvent) : Nat :=
  es.countP fun e => match e with | .dealloc _ => true | _ => false

/-! ## A concrete guest world for evaluating the invocation paths -/

/-- A small concrete guest: a log of written regions plus the location and
content the guest entry point will report as its result. -/
structure GuestWorld where
  buffers : List (Nat × List Nat)
  guestOutPtr : Nat
  guestOutBytes : List Nat
deriving DecidableEq, Repr

/-- A well-behaved concrete guest: allocation yields offset 64, writes are
recorded, reads return what was written, the guest entry point deposits its
result bytes and returns their packed descriptor, dealloc succeeds. -/
def fakeGuest : WasmIface GuestWorld where
  alloc_fn := fun s _ => (.ok 64, s)
  dealloc_fn := fun s _ => (.ok (), s)
  memory_write := fun s ptr bs => (.ok (), { s with buffers := (ptr, bs) :: s.buffers })
  memory_read := fun s ptr len =>
    match s.buffers.find? (fun q => q.1 == ptr) with
    | some q => (.ok (q.2.take len), s)
    | none => (.ok (List.replicate len 0), s)
  inner_wasm_fn := fun s _ =>
    (.ok (into_bitwise s.guestOutPtr s.guestOutBytes.length),
      { s with buffers := (s.guestOutPtr, s.guestOutBytes) :: s.buffers })

/-- The same guest with a failing `memory.write` (engine error code 7),
exercising the step-5 failure path of `call_checked`. -/
def failingWriteGuest : WasmIface GuestWorld :=
  { fakeGuest with memory_write := fun s _ _ => (.error 7, s) }

/-- A concrete user-data bundle. -/
def bundle0 : RuntimeCaller :=
  { memory := 0, alloc_fn := 1, dealloc_fn := 2,
    plugin := { name := "foo", plugin_type := "FooPlugin", data := [] } }

/-- Number of registry entries bound to `name`. -/
def keyCount (ms : List (String × RuntimeModule)) (name : String) : Nat :=
  ms.countP fun p => p.1 == name

/-- A load environment whose very first step (fetching the module bytes)
fails with loader error 3. -/
def failEnv : LoadEnv where
  bytes := .error 3
  compile := fun _ => .ok 0
  instantiate_pre := fun _ => .ok 0
  instantiate_async := fun _ => .ok 0
  get_memory := fun _ => some 0
  get_alloc := fun _ => .ok 0
  get_dealloc := fun _ => .ok 0

/-- A fully successful load environment producing instance identity `inst`. -/
def okEnv (inst : Nat) : LoadEnv where
  bytes := .ok [0]
  compile := fun _ => .ok 5
  instantiate_pre := fun m => .ok m
  instantiate_async := fun _ => .ok inst
  get_memory := fun _ => some 10
  get_alloc := fun _ => .ok 11
  get_dealloc := fun _ => .ok 12

/-! ## The guest allocator (`plugy-core/src/guest.rs`)

`alloc(len)` is `Vec::with_capacity(len).as_mut_ptr()` with the vector
forgotten.  For `len = 0`, `Vec::with_capacity(0)` performs no heap allocation
and `as_mut_ptr()` returns `NonNull::<u8>::dangling()`, whose address is
`align_of::<u8>() = 1`; for `len > 0` the global allocator hands out a fresh
region disjoint from every live one, modelled as a bump allocator over the
guest heap. -/

/-- `NonNull::<u8>::dangling()`: address `1`. -/
def danglingPtr : Nat := 1

/-- The guest heap: the next free offset and the live heap-backed regions
`(offset, length)`. -/
structure GuestHeap where
  next : Nat
  live : List (Nat × Nat)
deriving DecidableEq, Repr

/-- Heap well-formedness: the heap base sits above the dangling address, and
every live region does too. -/
def wfHeap (h : GuestHeap) : Prop :=
  2 ≤ h.next ∧ ∀ q ∈ h.live, 2 ≤ q.1

/-- `pub extern "C" fn alloc(len: u32) -> *mut u8`. -/
def alloc (h : GuestHeap) (len : Nat) : Nat × GuestHeap :=
  if len = 0 then (danglingPtr, h)
  else (h.next, { next := h.next + len, live := (h.next, len) :: h.live })

/-- The registry invariant behind C9: every record reachable in the
name→record map has its store's user-data slot filled. -/
def RegistryInv (rt : Runtime) : Prop :=
  ∀ p ∈ rt.modules, p.2.storeData.isSome = true

/-! ## The MessagePack wire model (`plugy-core/src/codec.rs`)

`codec.rs` delegates to the external `rmp_serde` (MessagePack) crate:
`serialize = rmp_serde::to_vec` and `deserialize = rmp_serde::from_slice`.
The encoding of the supported universe (unit/None, booleans, unsigned
integers, strings, and sequences/tuples) follows the MessagePack
specification with minimal-width integer headers, exactly as `rmp` writes
them: positive fixint, `uint8`/`16`/`32`/`64` (big-endian), fixstr and
`str8`/`16`/`32`, fixarray and `array16`/`32`. -/

mutual
/-- Values of the modelled MessagePack universe. -/
inductive MpValue where
  | nil
  | bool (b : Bool)
  | uint (n : Nat)
  | str (s : List Nat)
  | arr (vs : MpList)
/-- Lists of MessagePack values (mutual with `MpValue`). -/
inductive MpList where
  | nil
  | cons (v : MpValue) (vs : MpList)
end

/-- Length of an `MpList`. -/
def mpLen : MpList → Nat
  | .nil => 0
  | .cons _ vs => mpLen vs + 1

/-- The `k` big-endian bytes of `n` (truncating at `256 ^ k`). -/
def beBytes : Nat → Nat → List Nat
  | 0, _ => []
  | k + 1, n => beBytes k (n / 256) ++ [n % 256]

/-- Recompose a big-endian byte string into a number. -/
def fromBE (bs : List Nat) : Nat :=
  bs.foldl (fun acc b => acc * 256 + b) 0

/-- Consume `k` bytes from the input and decode them big-endian. -/
def readBE (k : Nat) (input : List Nat) : Option (Nat × List Nat) :=
  if k ≤ input.length then some (fromBE (input.take k), input.drop k) else none

mutual
/-- MessagePack encoding, as `rmp` emits it (minimal-width headers). -/
def mpEnc : MpValue → List Nat
  | .nil => [0xc0]
  | .bool false => [0xc2]
  | .bool true => [0xc3]
  | .uint n =>
    if n ≤ 0x7f then [n]
    else if n ≤ 0xff then [0xcc, n]
    else if n ≤ 0xffff then 0xcd :: beBytes 2 n
    else if n ≤ 0xffffffff then 0xce :: beBytes 4 n
    else 0xcf :: beBytes 8 n
  | .str s =>
    if s.length ≤ 31 then (0xa0 + s.length) :: s
    else if s.length ≤ 0xff then 0xd9 :: s.length :: s
    else if s.length ≤ 0xffff then 0xda :: (beBytes 2 s.length ++ s)
    else 0xdb :: (beBytes 4 s.length ++ s)
  | .arr vs =>
    (if mpLen vs ≤ 15 then [0x90 + mpLen vs]
     else if mpLen vs ≤ 0xffff then 0xdc :: beBytes 2 (mpLen vs)
     else 0xdd :: beBytes 4 (mpLen vs)) ++ mpEncList vs
/-- Concatenated encodings of the elements. -/
def mpEncList : MpList → List Nat
  | .nil => []
  | .cons v vs => mpEnc v ++ mpEncList vs
end

/-- Decode `n` consecutive MessagePack values with the given element
decoder. -/
def decodeN (dec : List Nat → Option (MpValue × List Nat)) :
    Nat → List Nat → Option (MpList × List Nat)
  | 0, input => some (.nil, input)
  | n + 1, input =>
    match dec input with
    | none => none
    | some (v, r) =>
      match decodeN dec n r with
      | none => none
      | some (vs, r2) => some (.cons v vs, r2)

set_option maxRecDepth 4096 in
/-- MessagePack decoding with explicit fuel bounding the nesting depth.
Dispatches on the first byte per the MessagePack specification. -/
def mpDec : Nat → List Nat → Option (MpValue × List Nat)
  | 0 => fun _ => none
  | fuel + 1 => fun input =>
    match input with
    | [] => none
    | b :: rest =>
      if b ≤ 0x7f then some (.uint b, rest)
      else if 0x90 ≤ b ∧ b ≤ 0x9f then
        match decodeN (mpDec fuel) (b - 0x90) rest with
        | none => none
        | some (vs, r2) => some (.arr vs, r2)
      else if 0xa0 ≤ b ∧ b ≤ 0xbf then
        if b - 0xa0 ≤ rest.length then
          some (.str (rest.take (b - 0xa0)), rest.drop (b - 0xa0))
        else none
      else if b = 0xc0 then some (.nil, rest)
      else if b = 0xc2 then some (.bool false, rest)
      else if b = 0xc3 then some (.bool true, rest)
      else if b = 0xcc then
        match rest with
        | [] => none
        | n :: r2 => some (.uint n, r2)
      else if b = 0xcd then
        match readBE 2 rest with
        | none => none
        | some (n, r2) => some (.uint n, r2)
      else if b = 0xce then
        match readBE 4 rest with
        | none => none
        | some (n, r2) => some (.uint n, r2)
      else if b = 0xcf then
        match readBE 8 rest with
        | none => none
        | some (n, r2) => some (.uint n, r2)
      else if b = 0xd9 then
        match rest with
        | [] => none
        | len :: r2 =>
          if len ≤ r2.length then some (.str (r2.take len), r2.drop len)
          else none
      else if b = 0xda then
        match readBE 2 rest with
        | none => none
        | some (len, r2) =>
          if len ≤ r2.length then some (.str (r2.take len), r2.drop len)
          else none
      else if b = 0xdb then
        match readBE 4 rest with
        | none => none
        | some (len, r2) =>
          if len ≤ r2.length then some (.str (r2.take len), r2.drop len)
          else none
      else if b = 0xdc then
        match readBE 2 rest with
        | none => none
        | some (n, r2) =>
          match decodeN (mpDec fuel) n r2 with
          | none => none
          | some (vs, r3) => some (.arr vs, r3)
      else if b = 0xdd then
        match readBE 4 rest with
        | none => none
        | some (n, r2) =>
          match decodeN (mpDec fuel) n r2 with
          | none => none
          | some (vs, r3) => some (.arr vs, r3)
      else none

mutual
/-- Well-formedness of the MessagePack universe: integers fit `u64`, string
bytes are bytes and lengths fit `u32`. -/
def wfMp : MpValue → Bool
  | .nil => true
  | .bool _ => true
  | .uint n => n < 2 ^ 64
  | .str s => s.length < 2 ^ 32 && s.all (· < 256)
  | .arr vs => mpLen vs < 2 ^ 32 && wfMpList vs
/-- Well-formedness of a list of values. -/
def wfMpList : MpList → Bool
  | .nil => true
  | .cons v vs => wfMp v && wfMpList vs
end

mutual
/-- Nesting depth (the fuel needed to decode). -/
def mpDepth : MpValue → Nat
  | .nil => 1
  | .bool _ => 1
  | .uint _ => 1
  | .str _ => 1
  | .arr vs => mpDepthList vs + 1
/-- Maximal depth over a list. -/
def mpDepthList : MpList → Nat
  | .nil => 0
  | .cons v vs => max (mpDepth v) (mpDepthList vs)
end

/-- `pub fn serialize<T>(value) -> anyhow::Result<Vec<u8>>`:
`rmp_serde::to_vec(value)` (total on the modelled universe). -/
def serialize (v : MpValue) : List Nat := mpEnc v

/-- `pub fn deserialize<T>(bytes) -> anyhow::Result<T>`:
`rmp_serde::from_slice(bytes)`.  The fuel `bytes.length + 1` dominates the
nesting depth of any value encoded within `bytes`. -/
def deserialize (bytes : List Nat) : Option MpValue :=
  match mpDec (bytes.length + 1) bytes with
  | none => none
  | some (v, _) => some v

/-! # Theorems -/

theorem into_bitwise_eq_arith (a b : Nat) (ha : a < 2 ^ 32) (hb : b < 2 ^ 32) :
    into_bitwise a b = 2 ^ 32 * b + a := by
  have hshift : b <<< 32 = 2 ^ 32 * b := by
    rw [Nat.shiftLeft_eq, Nat.mul_comm]
  have hlt : 2 ^ 32 * b < 2 ^ 64 := by
    have h1 : 2 ^ 32 * b + a < 2 ^ 32 * 2 ^ 32 := by
      calc 2 ^ 32 * b + a < 2 ^ 32 * b + 2 ^ 32 := by omega
        _ = 2 ^ 32 * (b + 1) := by ring
        _ ≤ 2 ^ 32 * 2 ^ 32 := Nat.mul_le_mul_left _ (by omega)
    norm_num at h1 ⊢
    omega
  rw [into_bitwise, hshift, Nat.mod_eq_of_lt hlt, Nat.lor_comm,
    ← Nat.mul_add_lt_is_or ha b]

theorem from_bitwise_eq_arith (v : Nat) :
    from_bitwise v = (v % 2 ^ 32, (v / 2 ^ 32) % 2 ^ 32) := by
  rw [from_bitwise, Nat.shiftLeft_eq, Nat.shiftRight_eq_div_pow,
    Nat.shiftRight_eq_div_pow]
  norm_num
  omega

/-- C6: the bitwise pair codec is a bijection between `u64` and `(u32, u32)`:
for all `a b < 2 ^ 32`, `from_bitwise (into_bitwise a b) = (a, b)` — `a` is
recovered as the low 32 bits and `b` as the high 32 bits — and for all
`v < 2 ^ 64`, `into_bitwise (from_bitwise v).1 (from_bitwise v).2 = v`. -/
theorem bitwise_pair_codec_bijective :
    (∀ a b : Nat, a < 2 ^ 32 → b < 2 ^ 32 →
      from_bitwise (into_bitwise a b) = (a, b) ∧
      (from_bitwise (into_bitwise a b)).1 = into_bitwise a b % 2 ^ 32 ∧
      (from_bitwise (into_bitwise a b)).2 = into_bitwise a b / 2 ^ 32) ∧
    (∀ v : Nat, v < 2 ^ 64 →
      into_bitwise (from_bitwise v).1 (from_bitwise v).2 = v) := by
  constructor
  · intro a b ha hb
    rw [from_bitwise_eq_arith, into_bitwise_eq_arith a b ha hb]
    refine ⟨?_, by omega, by omega⟩
    simp only [Prod.mk.injEq]
    omega
  · intro v hv
    rw [from_bitwise_eq_arith]
    have h1 : v % 2 ^ 32 < 2 ^ 32 := Nat.mod_lt _ (by norm_num)
    have h2 : (v / 2 ^ 32) % 2 ^ 32 < 2 ^ 32 := Nat.mod_lt _ (by norm_num)
    rw [into_bitwise_eq_arith _ _ h1 h2]
    have h3 : v / 2 ^ 32 < 2 ^ 32 := by
      apply Nat.div_lt_of_lt_mul
      norm_num at hv ⊢
      omega
    rw [Nat.mod_eq_of_lt h3]
    omega

/-- Witness for C6 at concrete inputs. -/
theorem bitwise_pair_codec_bijective_witness :
    from_bitwise (into_bitwise 7 9) = (7, 9) ∧
    into_bitwise (from_bitwise 77309411330).1 (from_bitwise 77309411330).2 =
      77309411330 :=
  ⟨(bitwise_pair_codec_bijective.1 7 9 (by norm_num) (by norm_num)).1,
    bitwise_pair_codec_bijective.2 77309411330 (by norm_num)⟩

theorem leBytes_length (k n : Nat) : (leBytes k n).length = k := by
  induction k generalizing n with
  | zero => rfl
  | succ k ih => simp [leBytes, ih]

theorem fromLE_leBytes (k n : Nat) : fromLE (leBytes k n) = n % 256 ^ k := by
  induction k generalizing n with
  | zero => simp [leBytes, fromLE, Nat.mod_one]
  | succ k ih =>
    have h : (256 : Nat) ^ (k + 1) = 256 * 256 ^ k := by ring
    rw [leBytes, fromLE, ih, h, Nat.mod_mul]

theorem readLE_append (k n : Nat) (r : List Nat) :
    readLE k (leBytes k n ++ r) = some (n % 256 ^ k, r) := by
  have hlen : (leBytes k n).length = k := leBytes_length k n
  have ht := List.take_left (leBytes k n) r
  have hd := List.drop_left (leBytes k n) r
  rw [hlen] at ht hd
  rw [readLE, if_pos (by rw [List.length_append, hlen]; omega), ht, hd,
    fromLE_leBytes]

theorem bincode_roundtrip_aux (v : BValue) (h : wfB v = true) :
    ∀ r : List Nat, bincodeDe (tyOf v) (bincodeSer v ++ r) = some (v, r) := by
  induction v with
  | u32 n =>
    intro r
    simp only [wfB, decide_eq_true_eq] at h
    simp only [tyOf, bincodeSer, bincodeDe, readLE_append, Option.map]
    have : n % 256 ^ 4 = n := Nat.mod_eq_of_lt (by norm_num at h ⊢; omega)
    rw [this]
  | u64 n =>
    intro r
    simp only [wfB, decide_eq_true_eq] at h
    simp only [tyOf, bincodeSer, bincodeDe, readLE_append, Option.map]
    have : n % 256 ^ 8 = n := Nat.mod_eq_of_lt (by norm_num at h ⊢; omega)
    rw [this]
  | bool b =>
    intro r
    cases b <;> rfl
  | bytes bs =>
    intro r
    simp only [wfB, Bool.and_eq_true, decide_eq_true_eq] at h
    simp only [tyOf, bincodeSer, bincodeDe, List.append_assoc, readLE_append]
    have hlen : bs.length % 256 ^ 8 = bs.length :=
      Nat.mod_eq_of_lt (by norm_num at h ⊢; omega)
    rw [hlen, if_pos (by simp), List.take_left, List.drop_left]
  | pair a b iha ihb =>
    intro r
    simp only [wfB, Bool.and_eq_true] at h
    simp only [tyOf, bincodeSer, bincodeDe, List.append_assoc]
    simp [iha h.1, ihb h.2]

/-- C10: after `p.update(&v)`, `p.data::<T>()` returns `Ok` of a value equal to
`v`, and `update` changes only the `data` field, leaving `name` and
`plugin_type` unchanged. -/
theorem plugin_update_data_roundtrip (p : Plugin) (v : BValue)
    (h : wfB v = true) :
    (p.update v).dataTyped (tyOf v) = some v ∧
    (p.update v).name = p.name ∧
    (p.update v).plugin_type = p.plugin_type := by
  refine ⟨?_, rfl, rfl⟩
  have hrt := bincode_roundtrip_aux v h []
  rw [List.append_nil] at hrt
  simp [Plugin.dataTyped, Plugin.update, hrt]

/-- Witness for C10 at a concrete plugin and value. -/
theorem plugin_update_data_roundtrip_witness :
    (Plugin.update ⟨"foo", "FooPlugin", [0]⟩
        (.pair (.u32 5) (.bytes [104, 105]))).dataTyped
      (tyOf (.pair (.u32 5) (.bytes [104, 105]))) =
      some (.pair (.u32 5) (.bytes [104, 105])) ∧
    (Plugin.update ⟨"foo", "FooPlugin", [0]⟩
        (.pair (.u32 5) (.bytes [104, 105]))).name = "foo" ∧
    (Plugin.update ⟨"foo", "FooPlugin", [0]⟩
        (.pair (.u32 5) (.bytes [104, 105]))).plugin_type = "FooPlugin" :=
  plugin_update_data_roundtrip ⟨"foo", "FooPlugin", [0]⟩
    (.pair (.u32 5) (.bytes [104, 105])) (by decide)

theorem into_from_helper (v : Nat) (hv : v < 2 ^ 64) :
    into_bitwise (from_bitwise v).1 (from_bitwise v).2 = v := by
  rw [from_bitwise_eq_arith]
  have h1 : v % 2 ^ 32 < 2 ^ 32 := Nat.mod_lt _ (by norm_num)
  have h2 : (v / 2 ^ 32) % 2 ^ 32 < 2 ^ 32 := Nat.mod_lt _ (by norm_num)
  rw [into_bitwise_eq_arith _ _ h1 h2]
  have h3 : v / 2 ^ 32 < 2 ^ 32 := by
    apply Nat.div_lt_of_lt_mul
    norm_num at hv ⊢
    omega
  rw [Nat.mod_eq_of_lt h3]
  omega

/-- C1 (evidence of the divergence): a fully successful `call_checked` run
against a well-behaved guest.  The guest entry point returns the packed
descriptor of its result buffer at offset 200; the host reads it and returns
the deserialized value, but the recorded boundary trace contains NO `dealloc`
event at all — the guest-returned packed pointer is never released
(`dealloc_fn` is discarded by the destructuring in the source), contradicting
the claim that it is deallocated exactly once before the call returns. -/
theorem call_checked_result_never_deallocated :
    call_checked (instrument fakeGuest) (some bundle0) .u32
        ({ buffers := [], guestOutPtr := 200,
           guestOutBytes := bincodeSer (.u32 9) }, []) (.u32 5) =
      (.ok (.u32 9),
        ({ buffers := [(200, [9, 0, 0, 0]), (64, [5, 0, 0, 0])],
           guestOutPtr := 200, guestOutBytes := [9, 0, 0, 0] },
         [.alloc 4 64, .write 64 4, .call 17179869248, .read 200 4])) ∧
    countDealloc
      [.alloc 4 64, .write 64 4, .call 17179869248, .read 200 4] = 0 :=
  ⟨rfl, rfl⟩

/-- C2 (evidence of the divergence): a `call_checked` run in which the guest
allocation of step 4 succeeds (offset 64 for the 4-byte input) and the
`memory.write` of step 5 fails (engine error 7).  The failure is propagated
as an error and no result is produced, but the trace shows no attempt to
`dealloc` the just-allocated input region `into_bitwise(64, 4)` — the `?` on
`memory.write` returns immediately, contradicting the claimed rollback. -/
theorem call_checked_write_failure_no_dealloc :
    call_checked (instrument failingWriteGuest) (some bundle0) .u32
        ({ buffers := [], guestOutPtr := 200,
           guestOutBytes := bincodeSer (.u32 9) }, []) (.u32 5) =
      (.error (.external 7),
        ({ buffers := [], guestOutPtr := 200, guestOutBytes := [9, 0, 0, 0] },
         [.alloc 4 64, .write 64 4])) ∧
    countDealloc [.alloc 4 64, .write 64 4] = 0 :=
  ⟨rfl, rfl⟩

theorem countDealloc_append (l1 l2 : List WEvent) :
    countDealloc (l1 ++ l2) = countDealloc l1 + countDealloc l2 :=
  List.countP_append _ _ _

/-- C5: for every registered context method, the generated host import
handler, on every successful run over any guest, performs in this order:
read the guest buffer at the unpacked `(ptr, len)`; call `dealloc_fn` on the
packed argument value exactly once, before the host service is invoked;
deserialize; invoke the service with the caller view; serialize its return
value `out`; allocate a fresh guest region of the serialized length; write it;
and return the packed descriptor of that freshly allocated region. -/
theorem context_handler_event_order {σ : Type} (w : WasmIface σ)
    (svc : σ → BValue → BValue × σ) (sd : RuntimeCaller) (argTy : BTy)
    (s : σ) (es : List WEvent) (packed : Nat) (hp : packed < 2 ^ 64)
    (res : Nat) (s2 : σ) (es2 : List WEvent)
    (hrun : context_handler (instrument w) (some sd) (instrumentSvc svc) argTy
      (s, es) packed = (.ok res, (s2, es2))) :
    ∃ out optr,
      es2 = es ++
        [.read (from_bitwise packed).1 (from_bitwise packed).2,
         .dealloc packed, .invoke, .alloc (bincodeSer out).length optr,
         .write optr (bincodeSer out).length] ∧
      res = into_bitwise optr (bincodeSer out).length ∧
      countDealloc es2 = countDealloc es + 1 := by
  have hback : into_bitwise (from_bitwise packed).1 (from_bitwise packed).2 =
      packed := into_from_helper packed hp
  rcases hfb : from_bitwise packed with ⟨ptr, len⟩
  rw [hfb] at hback
  simp only [context_handler, hfb, instrument, instrumentSvc] at hrun
  split at hrun
  next e snext heq => exact absurd hrun (by simp)
  next buffer snext heq =>
    simp only [Prod.mk.injEq] at heq
    obtain ⟨heqA, heqB⟩ := heq
    subst heqB
    split at hrun
    next e2 sx heq2 => exact absurd hrun (by simp)
    next u sx heq2 =>
      simp only [Prod.mk.injEq] at heq2
      obtain ⟨heq2A, heq2B⟩ := heq2
      subst heq2B
      split at hrun
      next hnone => exact absurd hrun (by simp)
      next args rest hsome =>
        split at hrun
        next e3 sy heq3 => exact absurd hrun (by simp)
        next optr sy heq3 =>
          simp only [Prod.mk.injEq] at heq3
          obtain ⟨heq3A, heq3B⟩ := heq3
          subst heq3B
          split at hrun
          next e4 sz heq4 => exact absurd hrun (by simp)
          next a4 sz heq4 =>
            simp only [Prod.mk.injEq] at heq4
            obtain ⟨heq4A, heq4B⟩ := heq4
            subst heq4B
            simp only [Prod.mk.injEq, Except.ok.injEq] at hrun
            obtain ⟨hres, hs2, hes2⟩ := hrun
            have hback2 : into_bitwise ptr len = packed := hback
            rw [heq3A] at hes2
            subst hes2
            subst hres
            refine ⟨_, optr, ?_, rfl, ?_⟩
            · rw [hback2]
              simp
            · rw [hback2]
              simp [countDealloc_append, countDealloc, List.countP_cons,
                List.countP_nil]


/-- Witness for C5: the handler applied to a concrete guest holding the
serialized `u32 3` argument at offset 300, with an echo service. -/
theorem context_handler_event_order_witness :
    ∃ out optr,
      ([Plugy.WEvent.read 300 4, .dealloc 17179869484, .invoke, .alloc 4 64,
        .write 64 4] : List WEvent) = [] ++
        [.read (from_bitwise 17179869484).1 (from_bitwise 17179869484).2,
         .dealloc 17179869484, .invoke, .alloc (bincodeSer out).length optr,
         .write optr (bincodeSer out).length] ∧
      17179869248 = into_bitwise optr (bincodeSer out).length ∧
      countDealloc
          [Plugy.WEvent.read 300 4, .dealloc 17179869484, .invoke,
           .alloc 4 64, .write 64 4] =
        countDealloc [] + 1 :=
  context_handler_event_order fakeGuest (fun s v => (v, s)) bundle0 .u32
    { buffers := [(300, bincodeSer (.u32 3))], guestOutPtr := 0,
      guestOutBytes := [] }
    [] 17179869484 (by norm_num) 17179869248
    { buffers := [(64, [3, 0, 0, 0]), (300, [3, 0, 0, 0])], guestOutPtr := 0,
      guestOutBytes := [] }
    [.read 300 4, .dealloc 17179869484, .invoke, .alloc 4 64, .write 64 4]
    rfl

theorem insertMod_cons_ne (q : String × RuntimeModule)
    (ms : List (String × RuntimeModule)) (name : String) (rec : RuntimeModule)
    (hq : (q.1 == name) = false) :
    insertMod (q :: ms) name rec = q :: insertMod ms name rec := by
  by_cases hany : ms.any (fun p => p.1 == name)
  · simp [insertMod, hq, hany]
    intro h
    exact absurd hq (by simp [h])
  · simp [insertMod, hq, hany]

theorem lookupMod_insertMod_self (ms : List (String × RuntimeModule))
    (name : String) (rec : RuntimeModule) :
    lookupMod (insertMod ms name rec) name = some rec := by
  induction ms with
  | nil => simp [insertMod, lookupMod]
  | cons q ms ih =>
    by_cases hq : (q.1 == name) = true
    · have hany : (q :: ms).any (fun p => p.1 == name) = true := by
        simp [List.any_cons, hq]
      rw [insertMod, if_pos hany, List.map_cons, if_pos hq]
      simp [lookupMod]
    · rw [insertMod_cons_ne q ms name rec (by simpa using hq)]
      rw [lookupMod, List.find?_cons_of_neg _ (by simpa using hq)]
      exact ih

theorem countP_zero_map_replace (ms : List (String × RuntimeModule))
    (name : String) (rec : RuntimeModule)
    (h : ms.countP (fun p => p.1 == name) = 0) :
    (ms.map fun p => if p.1 == name then (name, rec) else p) = ms := by
  induction ms with
  | nil => rfl
  | cons q ms ih =>
    rw [List.countP_cons] at h
    have hq : (q.1 == name) = false := by
      by_cases hq2 : (q.1 == name) = true
      · simp [hq2] at h
      · simpa using hq2
    simp only [List.map_cons, hq, if_false, Bool.false_eq_true]
    rw [ih (by omega)]

theorem keyCount_insertMod (ms : List (String × RuntimeModule))
    (name : String) (rec : RuntimeModule) (h : keyCount ms name ≤ 1) :
    keyCount (insertMod ms name rec) name = 1 := by
  induction ms with
  | nil => simp [insertMod, keyCount, List.countP_cons]
  | cons q ms ih =>
    by_cases hq : (q.1 == name) = true
    · have hany : (q :: ms).any (fun p => p.1 == name) = true := by
        simp [List.any_cons, hq]
      rw [keyCount, List.countP_cons] at h
      simp only [hq, if_true] at h
      have hzero : ms.countP (fun p => p.1 == name) = 0 := by omega
      rw [insertMod, if_pos hany, List.map_cons, if_pos hq]
      rw [keyCount, List.countP_cons, countP_zero_map_replace ms name rec hzero,
        hzero]
      simp
    · have hq2 : (q.1 == name) = false := by simpa using hq
      rw [insertMod_cons_ne q ms name rec hq2]
      rw [keyCount, List.countP_cons, hq2]
      rw [keyCount, List.countP_cons, hq2] at h
      simp only [if_false, Bool.false_eq_true, Nat.add_zero] at h ⊢
      exact ih h

/-- C3: `load` is atomic with respect to the registry: whenever any of the
steps (1)-(8) — fetching bytes, compiling, preparing via the linker,
instantiating, or resolving/type-checking the `memory`/`alloc`/`dealloc`
exports — fails, `load` returns that error and the name→record map is exactly
as it was before the call. -/
theorem load_failure_leaves_registry_unchanged :
    (∀ (rt : Runtime) (env : LoadEnv) (name : String) (desc : Plugin)
      (e : RtErr),
      (load rt env name desc).1 = .error e → (load rt env name desc).2 = rt) ∧
    (∀ (rt : Runtime) (env : LoadEnv) (name : String) (desc : Plugin)
      (e : RtErr),
      loadSteps env desc = .error e → load rt env name desc = (.error e, rt)) := by
  constructor
  · intro rt env name desc e h
    cases hs : loadSteps env desc with
    | error e2 => simp [load, hs]
    | ok rec =>
      exfalso
      have hok : (load rt env name desc).1 =
          .ok (⟨rec.instanceId, rec.storeData⟩ : PluginHandle) := by
        simp [load, hs, getPluginByName, lookupMod_insertMod_self]
      rw [hok] at h
      exact Except.noConfusion h
  · intro rt env name desc e h
    simp [load, h]

/-- Witness for C3: a load whose byte fetch fails leaves a one-entry registry
unchanged. -/
theorem load_failure_leaves_registry_unchanged_witness :
    (load
        { modules := [("a", { inner := 0, storeData := none, instanceId := 0 })] }
        failEnv "b" { name := "b", plugin_type := "B", data := [] }).2 =
      { modules := [("a", { inner := 0, storeData := none, instanceId := 0 })] } ∧
    load
        { modules := [("a", { inner := 0, storeData := none, instanceId := 0 })] }
        failEnv "b" { name := "b", plugin_type := "B", data := [] } =
      (.error (.external 3),
        { modules := [("a", { inner := 0, storeData := none, instanceId := 0 })] }) :=
  ⟨load_failure_leaves_registry_unchanged.1 _ failEnv "b"
      { name := "b", plugin_type := "B", data := [] } (.external 3) rfl,
    load_failure_leaves_registry_unchanged.2 _ failEnv "b"
      { name := "b", plugin_type := "B", data := [] } (.external 3) rfl⟩

/-- C4: loading under an already-used name replaces the previous record:
after `load(L1)` then `load(L2)` with the same loader name, the registry holds
exactly one record under that name, that record is the one built by the
second load, and `get_plugin_by_name` (as well as the handle returned by the
second load itself) is a handle to the instance and store of the second
load. -/
theorem duplicate_load_replaces_record (rt rt1 rt2 : Runtime)
    (env1 env2 : LoadEnv) (name : String) (d1 d2 : Plugin)
    (res1 res2 : Except RtErr PluginHandle) (rec2 : RuntimeModule)
    (hcount : keyCount rt.modules name ≤ 1)
    (h1 : load rt env1 name d1 = (res1, rt1))
    (hs2 : loadSteps env2 d2 = .ok rec2)
    (h2 : load rt1 env2 name d2 = (res2, rt2)) :
    keyCount rt2.modules name = 1 ∧
    lookupMod rt2.modules name = some rec2 ∧
    getPluginByName rt2 name =
      .ok { instanceId := rec2.instanceId, storeData := rec2.storeData } ∧
    res2 = .ok { instanceId := rec2.instanceId, storeData := rec2.storeData } := by
  have hc1 : keyCount rt1.modules name ≤ 1 := by
    cases hs1 : loadSteps env1 d1 with
    | error e =>
      simp only [load, hs1] at h1
      obtain ⟨-, hrt1⟩ := Prod.mk.injEq _ _ _ _ ▸ h1
      rw [← hrt1]
      exact hcount
    | ok rec1 =>
      simp only [load, hs1] at h1
      obtain ⟨-, hrt1⟩ := Prod.mk.injEq _ _ _ _ ▸ h1
      rw [← hrt1]
      exact Nat.le_of_eq (keyCount_insertMod rt.modules name rec1 hcount)
  simp only [load, hs2] at h2
  obtain ⟨hres2, hrt2⟩ := Prod.mk.injEq _ _ _ _ ▸ h2
  have hrt2s : rt2 = { modules := insertMod rt1.modules name rec2 } := hrt2.symm
  have hlook : lookupMod rt2.modules name = some rec2 := by
    rw [hrt2s]
    exact lookupMod_insertMod_self rt1.modules name rec2
  refine ⟨?_, hlook, ?_, ?_⟩
  · rw [hrt2s]
    exact keyCount_insertMod rt1.modules name rec2 hc1
  · simp [getPluginByName, hlook]
  · rw [← hres2]
    simp [getPluginByName, lookupMod_insertMod_self]

/-- Witness for C4: two successful loads of the same name `"p"` on a fresh
runtime; the registry ends with the second record only. -/
theorem duplicate_load_replaces_record_witness :
    keyCount
        (insertMod
          (insertMod [] "p"
            { inner := 5,
              storeData := some
                { memory := 10, alloc_fn := 11, dealloc_fn := 12,
                  plugin := { name := "p", plugin_type := "P1", data := [1] } },
              instanceId := 1 })
          "p"
          { inner := 5,
            storeData := some
              { memory := 10, alloc_fn := 11, dealloc_fn := 12,
                plugin := { name := "p", plugin_type := "P2", data := [2] } },
            instanceId := 2 })
        "p" = 1 ∧
    lookupMod
        (insertMod
          (insertMod [] "p"
            { inner := 5,
              storeData := some
                { memory := 10, alloc_fn := 11, dealloc_fn := 12,
                  plugin := { name := "p", plugin_type := "P1", data := [1] } },
              instanceId := 1 })
          "p"
          { inner := 5,
            storeData := some
              { memory := 10, alloc_fn := 11, dealloc_fn := 12,
                plugin := { name := "p", plugin_type := "P2", data := [2] } },
            instanceId := 2 })
        "p" =
      some
        { inner := 5,
          storeData := some
            { memory := 10, alloc_fn := 11, dealloc_fn := 12,
              plugin := { name := "p", plugin_type := "P2", data := [2] } },
          instanceId := 2 } ∧
    getPluginByName
        { modules :=
            insertMod
              (insertMod [] "p"
                { inner := 5,
                  storeData := some
                    { memory := 10, alloc_fn := 11, dealloc_fn := 12,
                      plugin := { name := "p", plugin_type := "P1", data := [1] } },
                  instanceId := 1 })
              "p"
              { inner := 5,
                storeData := some
                  { memory := 10, alloc_fn := 11, dealloc_fn := 12,
                    plugin := { name := "p", plugin_type := "P2", data := [2] } },
                instanceId := 2 } }
        "p" =
      .ok
        { instanceId := 2,
          storeData := some
            { memory := 10, alloc_fn := 11, dealloc_fn := 12,
              plugin := { name := "p", plugin_type := "P2", data := [2] } } } ∧
    (load
          { modules :=
              insertMod [] "p"
                { inner := 5,
                  storeData := some
                    { memory := 10, alloc_fn := 11, dealloc_fn := 12,
                      plugin := { name := "p", plugin_type := "P1", data := [1] } },
                  instanceId := 1 } }
          (okEnv 2) "p" { name := "p", plugin_type := "P2", data := [2] }).1 =
      .ok
        { instanceId := 2,
          storeData := some
            { memory := 10, alloc_fn := 11, dealloc_fn := 12,
              plugin := { name := "p", plugin_type := "P2", data := [2] } } } :=
  duplicate_load_replaces_record Runtime.new
    { modules :=
        insertMod [] "p"
          { inner := 5,
            storeData := some
              { memory := 10, alloc_fn := 11, dealloc_fn := 12,
                plugin := { name := "p", plugin_type := "P1", data := [1] } },
            instanceId := 1 } }
    _ (okEnv 1) (okEnv 2) "p"
    { name := "p", plugin_type := "P1", data := [1] }
    { name := "p", plugin_type := "P2", data := [2] }
    _ _ _ (by decide) rfl rfl rfl

theorem mem_insertMod (ms : List (String × RuntimeModule)) (name : String)
    (rec : RuntimeModule) (p : String × RuntimeModule)
    (hp : p ∈ insertMod ms name rec) : p ∈ ms ∨ p = (name, rec) := by
  by_cases hany : ms.any (fun q => q.1 == name)
  · rw [insertMod, if_pos hany] at hp
    obtain ⟨q, hq, hfq⟩ := List.mem_map.mp hp
    by_cases h2 : (q.1 == name) = true
    · right
      rw [if_pos h2] at hfq
      exact hfq.symm
    · left
      rw [if_neg h2] at hfq
      exact hfq ▸ hq
  · rw [insertMod, if_neg hany] at hp
    rcases List.mem_append.mp hp with h | h
    · exact Or.inl h
    · exact Or.inr (by simpa using h)

theorem lookupMod_mem (ms : List (String × RuntimeModule)) (name : String)
    (rec : RuntimeModule) (h : lookupMod ms name = some rec) :
    ∃ k, (k, rec) ∈ ms := by
  rw [lookupMod] at h
  cases hf : ms.find? (fun p => p.1 == name) with
  | none =>
    rw [hf] at h
    exact Option.noConfusion h
  | some p =>
    rw [hf] at h
    injection h with h2
    refine ⟨p.1, ?_⟩
    rw [← h2]
    exact List.mem_of_find?_eq_some hf

theorem loadSteps_ok_inv (env : LoadEnv) (desc : Plugin) (rec : RuntimeModule)
    (h : loadSteps env desc = .ok rec) :
    ∃ m a d, rec.storeData =
        some { memory := m, alloc_fn := a, dealloc_fn := d, plugin := desc } ∧
      env.get_memory rec.instanceId = some m ∧
      env.get_alloc rec.instanceId = .ok a ∧
      env.get_dealloc rec.instanceId = .ok d := by
  rw [loadSteps] at h
  split at h
  next e heq => exact Except.noConfusion h
  next bytes heq =>
    split at h
    next e heq2 => exact Except.noConfusion h
    next moduleId heq2 =>
      split at h
      next e heq3 => exact Except.noConfusion h
      next preId heq3 =>
        split at h
        next e heq4 => exact Except.noConfusion h
        next instId heq4 =>
          split at h
          next heq5 => exact Except.noConfusion h
          next memId heq5 =>
            split at h
            next e heq6 => exact Except.noConfusion h
            next allocId heq6 =>
              split at h
              next e heq7 => exact Except.noConfusion h
              next deallocId heq7 =>
                injection h with h2
                subst h2
                exact ⟨memId, allocId, deallocId, rfl, heq5, heq6, heq7⟩

theorem call_checked_some_shape {σ : Type} (w : WasmIface σ)
    (b : RuntimeCaller) (retTy : BTy) (s : σ) (v : BValue)
    (res : Except RtErr BValue) (s2 : σ)
    (hrun : call_checked w (some b) retTy s v = (res, s2)) :
    res ≠ .error .panicNone := by
  simp only [call_checked] at hrun
  repeat' split at hrun
  all_goals
    obtain ⟨h1, h2⟩ := Prod.mk.injEq _ _ _ _ ▸ hrun
    subst h1
    simp

theorem context_handler_some_shape {σ : Type} (w : WasmIface σ)
    (b : RuntimeCaller) (svc : σ → BValue → BValue × σ) (argTy : BTy)
    (s : σ) (packed : Nat) (res : Except RtErr Nat) (s2 : σ)
    (hrun : context_handler w (some b) svc argTy s packed = (res, s2)) :
    res ≠ .error .panicNone := by
  simp only [context_handler] at hrun
  repeat' split at hrun
  all_goals
    obtain ⟨h1, h2⟩ := Prod.mk.injEq _ _ _ _ ▸ hrun
    subst h1
    simp

/-- C9: the registry invariant — (i) a fresh runtime satisfies it, (ii) `load`
preserves it (the bundle is installed in the store's user-data slot before
the record is inserted), (iii) a record built by a successful load carries
`Some` of a `RuntimeCaller` bundle holding exactly the resolved memory, the
typed `alloc`/`dealloc` exports and the plugin descriptor, and (iv) for any
record reachable by lookup in a runtime satisfying the invariant, the
user-data `unwrap` performed at the start of `call_checked` and of every
generated context import handler can never be the `None`-panic. -/
theorem registry_user_data_always_installed :
    RegistryInv Runtime.new ∧
    (∀ (rt : Runtime) (env : LoadEnv) (name : String) (desc : Plugin),
      RegistryInv rt → RegistryInv (load rt env name desc).2) ∧
    (∀ (env : LoadEnv) (desc : Plugin) (rec : RuntimeModule),
      loadSteps env desc = .ok rec →
      ∃ m a d, rec.storeData =
          some { memory := m, alloc_fn := a, dealloc_fn := d, plugin := desc } ∧
        env.get_memory rec.instanceId = some m ∧
        env.get_alloc rec.instanceId = .ok a ∧
        env.get_dealloc rec.instanceId = .ok d) ∧
    (∀ (rt : Runtime) (name : String) (rec : RuntimeModule),
      RegistryInv rt → lookupMod rt.modules name = some rec →
      rec.storeData.isSome = true ∧
      (∀ (σ : Type) (w : WasmIface σ) (retTy : BTy) (s : σ) (v : BValue),
        (call_checked w rec.storeData retTy s v).1 ≠ .error .panicNone) ∧
      (∀ (σ : Type) (w : WasmIface σ) (svc : σ → BValue → BValue × σ)
        (argTy : BTy) (s : σ) (packed : Nat),
        (context_handler w rec.storeData svc argTy s packed).1 ≠
          .error .panicNone)) := by
  refine ⟨?_, ?_, ?_, ?_⟩
  · intro p hp
    simp [Runtime.new] at hp
  · intro rt env name desc hInv
    cases hs : loadSteps env desc with
    | error e =>
      simp only [load, hs]
      exact hInv
    | ok rec =>
      simp only [load, hs]
      intro p hp
      rcases mem_insertMod rt.modules name rec p hp with h | h
      · exact hInv p h
      · obtain ⟨m, a, d, hsd, -, -, -⟩ := loadSteps_ok_inv env desc rec hs
        rw [h]
        simp [hsd]
  · exact fun env desc rec h => loadSteps_ok_inv env desc rec h
  · intro rt name rec hInv hlook
    obtain ⟨k, hk⟩ := lookupMod_mem rt.modules name rec hlook
    have hsome : rec.storeData.isSome = true := hInv (k, rec) hk
    obtain ⟨b, hb⟩ := Option.isSome_iff_exists.mp hsome
    refine ⟨hsome, ?_, ?_⟩
    · intro σ w retTy s v
      rw [hb]
      exact call_checked_some_shape w b retTy s v _ _ rfl
    · intro σ w svc argTy s packed
      rw [hb]
      exact context_handler_some_shape w b svc argTy s packed _ _ rfl

/-- Witness for C9: a concrete load on a fresh runtime, its record's bundle,
and the resulting non-panicking invocations. -/
theorem registry_user_data_always_installed_witness :
    RegistryInv
      (load Runtime.new (okEnv 1) "p"
        { name := "p", plugin_type := "P", data := [] }).2 ∧
    (∃ m a d,
      (({ inner := 5,
          storeData := some
            { memory := 10, alloc_fn := 11, dealloc_fn := 12,
              plugin := { name := "p", plugin_type := "P", data := [] } },
          instanceId := 1 } : RuntimeModule)).storeData =
        some { memory := m, alloc_fn := a, dealloc_fn := d,
               plugin := { name := "p", plugin_type := "P", data := [] } } ∧
      (okEnv 1).get_memory 1 = some m ∧
      (okEnv 1).get_alloc 1 = .ok a ∧
      (okEnv 1).get_dealloc 1 = .ok d) ∧
    (call_checked fakeGuest
        (some { memory := 10, alloc_fn := 11, dealloc_fn := 12,
                plugin := { name := "p", plugin_type := "P", data := [] } })
        .u32 { buffers := [], guestOutPtr := 0, guestOutBytes := [] }
        (.u32 1)).1 ≠ .error .panicNone := by
  refine ⟨registry_user_data_always_installed.2.1 Runtime.new (okEnv 1) "p"
      { name := "p", plugin_type := "P", data := [] }
      registry_user_data_always_installed.1, ?_, ?_⟩
  · have h := registry_user_data_always_installed.2.2.1 (okEnv 1)
      { name := "p", plugin_type := "P", data := [] }
      { inner := 5,
        storeData := some
          { memory := 10, alloc_fn := 11, dealloc_fn := 12,
            plugin := { name := "p", plugin_type := "P", data := [] } },
        instanceId := 1 } rfl
    exact h
  · have h := (registry_user_data_always_installed.2.2.2
      { modules := [("p",
          { inner := 5,
            storeData := some
              { memory := 10, alloc_fn := 11, dealloc_fn := 12,
                plugin := { name := "p", plugin_type := "P", data := [] } },
            instanceId := 1 })] }
      "p"
      { inner := 5,
        storeData := some
          { memory := 10, alloc_fn := 11, dealloc_fn := 12,
            plugin := { name := "p", plugin_type := "P", data := [] } },
        instanceId := 1 }
      (by simp [RegistryInv]) rfl).2.1
    exact h GuestWorld fakeGuest .u32
      { buffers := [], guestOutPtr := 0, guestOutBytes := [] } (.u32 1)

/-- C8 counterexample: two zero-length allocations, both live, return the
SAME offset (the dangling address 1), so a zero-length allocation does alias
(shares its offset with) other zero-length allocations, contrary to the
claim.  The offset is nevertheless non-null. -/
theorem alloc_zero_shared_offset_counterexample :
    (alloc { next := 2, live := [] } 0).1 =
      (alloc (alloc { next := 2, live := [] } 0).2 0).1 ∧
    (alloc { next := 2, live := [] } 0).1 = 1 ∧
    (alloc { next := 2, live := [] } 0).1 ≠ 0 := by
  decide

/-- C8 amended: `alloc(0)` returns the fixed non-null dangling offset 1 and
performs no heap allocation (the heap state is unchanged), so its offset lies
outside every heap-backed live region; but it is the SAME offset for every
zero-length allocation rather than a distinct one. -/
theorem alloc_zero_dangling (h : GuestHeap) (hwf : wfHeap h) :
    alloc h 0 = (danglingPtr, h) ∧
    danglingPtr ≠ 0 ∧
    (∀ q ∈ h.live, ¬(q.1 ≤ danglingPtr ∧ danglingPtr < q.1 + q.2)) ∧
    (∀ h2 : GuestHeap, (alloc h2 0).1 = (alloc h 0).1) := by
  refine ⟨by simp [alloc], by simp [danglingPtr], ?_, ?_⟩
  · intro q hq
    have h2 := hwf.2 q hq
    simp only [danglingPtr]
    omega
  · intro h2
    simp [alloc]

/-- Witness for C8 (amended) at a concrete heap with one live region. -/
theorem alloc_zero_dangling_witness :
    alloc { next := 7, live := [(2, 5)] } 0 =
      (danglingPtr, { next := 7, live := [(2, 5)] }) ∧
    danglingPtr ≠ 0 ∧
    (∀ q ∈ ({ next := 7, live := [(2, 5)] } : GuestHeap).live,
      ¬(q.1 ≤ danglingPtr ∧ danglingPtr < q.1 + q.2)) ∧
    (∀ h2 : GuestHeap,
      (alloc h2 0).1 = (alloc { next := 7, live := [(2, 5)] } 0).1) :=
  alloc_zero_dangling { next := 7, live := [(2, 5)] }
    ⟨by norm_num, by decide⟩

theorem beBytes_length (k n : Nat) : (beBytes k n).length = k := by
  induction k generalizing n with
  | zero => rfl
  | succ k ih => simp [beBytes, ih]

theorem fromBE_beBytes (k n : Nat) : fromBE (beBytes k n) = n % 256 ^ k := by
  induction k generalizing n with
  | zero => simp [beBytes, fromBE, Nat.mod_one]
  | succ k ih =>
    have h1 : fromBE (beBytes k (n / 256) ++ [n % 256]) =
        fromBE (beBytes k (n / 256)) * 256 + n % 256 := by
      rw [fromBE, List.foldl_append]
      simp [fromBE]
    rw [beBytes, h1, ih, pow_succ, Nat.mul_comm (256 ^ k) 256, Nat.mod_mul]
    ring

theorem readBE_append (k n : Nat) (r : List Nat) :
    readBE k (beBytes k n ++ r) = some (n % 256 ^ k, r) := by
  have hlen : (beBytes k n).length = k := beBytes_length k n
  have ht := List.take_left (beBytes k n) r
  have hd := List.drop_left (beBytes k n) r
  rw [hlen] at ht hd
  rw [readBE, if_pos (by rw [List.length_append, hlen]; omega), ht, hd,
    fromBE_beBytes]

mutual
theorem mpDepth_le_length : ∀ v : MpValue, mpDepth v ≤ (mpEnc v).length
  | .nil => by simp [mpDepth, mpEnc]
  | .bool b => by cases b <;> simp [mpDepth, mpEnc]
  | .uint n => by
    rw [mpDepth, mpEnc]
    repeat' split
    all_goals simp [beBytes_length]
  | .str s => by
    rw [mpDepth, mpEnc]
    repeat' split
    all_goals simp [beBytes_length]
  | .arr vs => by
    have ih := mpDepthList_le_length vs
    rw [mpDepth, mpEnc, List.length_append]
    have hhead : 1 ≤ (if mpLen vs ≤ 15 then [0x90 + mpLen vs]
        else if mpLen vs ≤ 0xffff then 0xdc :: beBytes 2 (mpLen vs)
        else 0xdd :: beBytes 4 (mpLen vs)).length := by
      repeat' split
      all_goals simp [beBytes_length]
    omega
theorem mpDepthList_le_length : ∀ vs : MpList,
    mpDepthList vs ≤ (mpEncList vs).length
  | .nil => by simp [mpDepthList, mpEncList]
  | .cons v vs => by
    have ih1 := mpDepth_le_length v
    have ih2 := mpDepthList_le_length vs
    rw [mpDepthList, mpEncList, List.length_append]
    omega
end

theorem mpDec_succ_cons (fuel b : Nat) (rest : List Nat) :
    mpDec (fuel + 1) (b :: rest) =
      (if b ≤ 0x7f then some (.uint b, rest)
      else if 0x90 ≤ b ∧ b ≤ 0x9f then
        match decodeN (mpDec fuel) (b - 0x90) rest with
        | none => none
        | some (vs, r2) => some (.arr vs, r2)
      else if 0xa0 ≤ b ∧ b ≤ 0xbf then
        if b - 0xa0 ≤ rest.length then
          some (.str (rest.take (b - 0xa0)), rest.drop (b - 0xa0))
        else none
      else if b = 0xc0 then some (.nil, rest)
      else if b = 0xc2 then some (.bool false, rest)
      else if b = 0xc3 then some (.bool true, rest)
      else if b = 0xcc then
        match rest with
        | [] => none
        | n :: r2 => some (.uint n, r2)
      else if b = 0xcd then
        match readBE 2 rest with
        | none => none
        | some (n, r2) => some (.uint n, r2)
      else if b = 0xce then
        match readBE 4 rest with
        | none => none
        | some (n, r2) => some (.uint n, r2)
      else if b = 0xcf then
        match readBE 8 rest with
        | none => none
        | some (n, r2) => some (.uint n, r2)
      else if b = 0xd9 then
        match rest with
        | [] => none
        | len :: r2 =>
          if len ≤ r2.length then some (.str (r2.take len), r2.drop len)
          else none
      else if b = 0xda then
        match readBE 2 rest with
        | none => none
        | some (len, r2) =>
          if len ≤ r2.length then some (.str (r2.take len), r2.drop len)
          else none
      else if b = 0xdb then
        match readBE 4 rest with
        | none => none
        | some (len, r2) =>
          if len ≤ r2.length then some (.str (r2.take len), r2.drop len)
          else none
      else if b = 0xdc then
        match readBE 2 rest with
        | none => none
        | some (n, r2) =>
          match decodeN (mpDec fuel) n r2 with
          | none => none
          | some (vs, r3) => some (.arr vs, r3)
      else if b = 0xdd then
        match readBE 4 rest with
        | none => none
        | some (n, r2) =>
          match decodeN (mpDec fuel) n r2 with
          | none => none
          | some (vs, r3) => some (.arr vs, r3)
      else none) := rfl

mutual
theorem mpDec_mpEnc : ∀ (v : MpValue) (fuel : Nat) (r : List Nat),
    mpDepth v ≤ fuel → wfMp v = true →
    mpDec fuel (mpEnc v ++ r) = some (v, r)
  | .nil, fuel, r, hd, _ => by
    rw [mpDepth] at hd
    obtain ⟨f, rfl⟩ : ∃ f, fuel = f + 1 := ⟨fuel - 1, by omega⟩
    rw [mpEnc]
    simp only [List.cons_append, List.nil_append]
    rw [mpDec_succ_cons]
    norm_num
  | .bool b, fuel, r, hd, _ => by
    rw [mpDepth] at hd
    obtain ⟨f, rfl⟩ : ∃ f, fuel = f + 1 := ⟨fuel - 1, by omega⟩
    cases b <;>
      (rw [mpEnc]
       simp only [List.cons_append, List.nil_append]
       rw [mpDec_succ_cons]
       norm_num)
  | .uint n, fuel, r, hd, hw => by
    rw [mpDepth] at hd
    rw [wfMp, decide_eq_true_eq] at hw
    obtain ⟨f, rfl⟩ : ∃ f, fuel = f + 1 := ⟨fuel - 1, by omega⟩
    by_cases h1 : n ≤ 0x7f
    · rw [mpEnc, if_pos h1]
      simp only [List.cons_append, List.nil_append]
      rw [mpDec_succ_cons, if_pos h1]
    · by_cases h2 : n ≤ 0xff
      · rw [mpEnc, if_neg h1, if_pos h2]
        simp only [List.cons_append, List.nil_append]
        rw [mpDec_succ_cons]
        norm_num
      · by_cases h3 : n ≤ 0xffff
        · rw [mpEnc, if_neg h1, if_neg h2, if_pos h3]
          simp only [List.cons_append, List.append_assoc]
          rw [mpDec_succ_cons]
          norm_num [readBE_append]
          omega
        · by_cases h4 : n ≤ 0xffffffff
          · rw [mpEnc, if_neg h1, if_neg h2, if_neg h3, if_pos h4]
            simp only [List.cons_append, List.append_assoc]
            rw [mpDec_succ_cons]
            norm_num [readBE_append]
            omega
          · rw [mpEnc, if_neg h1, if_neg h2, if_neg h3, if_neg h4]
            simp only [List.cons_append, List.append_assoc]
            rw [mpDec_succ_cons]
            norm_num [readBE_append]
            omega
  | .str s, fuel, r, hd, hw => by
    rw [mpDepth] at hd
    obtain ⟨f, rfl⟩ : ∃ f, fuel = f + 1 := ⟨fuel - 1, by omega⟩
    rw [wfMp, Bool.and_eq_true, decide_eq_true_eq] at hw
    have htake := List.take_left s r
    have hdrop := List.drop_left s r
    by_cases h1 : s.length ≤ 31
    · rw [mpEnc, if_pos h1]
      simp only [List.cons_append]
      rw [mpDec_succ_cons, if_neg (by omega), if_neg (by omega),
        if_pos (by omega)]
      have hsub : 0xa0 + s.length - 0xa0 = s.length := by omega
      rw [hsub, if_pos (by rw [List.length_append]; omega), htake, hdrop]
    · by_cases h2 : s.length ≤ 0xff
      · rw [mpEnc, if_neg h1, if_pos h2]
        simp only [List.cons_append]
        rw [mpDec_succ_cons]
        norm_num
      · by_cases h3 : s.length ≤ 0xffff
        · rw [mpEnc, if_neg h1, if_neg h2, if_pos h3]
          simp only [List.cons_append, List.append_assoc]
          rw [mpDec_succ_cons]
          norm_num [readBE_append]
          have hmod : s.length % 65536 = s.length := by omega
          rw [hmod]
          exact ⟨by omega, htake, hdrop⟩
        · rw [mpEnc, if_neg h1, if_neg h2, if_neg h3]
          simp only [List.cons_append, List.append_assoc]
          rw [mpDec_succ_cons]
          norm_num [readBE_append]
          have hmod : s.length % 4294967296 = s.length := by
            have h5 := hw.1
            norm_num at h5 ⊢
            omega
          rw [hmod]
          exact ⟨by omega, htake, hdrop⟩
  | .arr vs, fuel, r, hd, hw => by
    rw [mpDepth] at hd
    obtain ⟨f, rfl⟩ : ∃ f, fuel = f + 1 := ⟨fuel - 1, by omega⟩
    rw [wfMp, Bool.and_eq_true, decide_eq_true_eq] at hw
    have ih := mpDecN_mpEncList vs f r (by omega) hw.2
    by_cases h1 : mpLen vs ≤ 15
    · rw [mpEnc, if_pos h1]
      simp only [List.cons_append, List.nil_append]
      rw [mpDec_succ_cons, if_neg (by omega), if_pos (by omega)]
      have hsub : 0x90 + mpLen vs - 0x90 = mpLen vs := by omega
      rw [hsub, ih]
    · by_cases h2 : mpLen vs ≤ 0xffff
      · rw [mpEnc, if_neg h1, if_pos h2]
        simp only [List.cons_append, List.append_assoc]
        rw [mpDec_succ_cons]
        norm_num [readBE_append]
        have hmod : mpLen vs % 65536 = mpLen vs := by omega
        rw [hmod, ih]
      · rw [mpEnc, if_neg h1, if_neg h2]
        simp only [List.cons_append, List.append_assoc]
        rw [mpDec_succ_cons]
        norm_num [readBE_append]
        have hmod : mpLen vs % 4294967296 = mpLen vs := by
          have h5 := hw.1
          norm_num at h5 ⊢
          omega
        rw [hmod, ih]
theorem mpDecN_mpEncList : ∀ (vs : MpList) (fuel : Nat) (r : List Nat),
    mpDepthList vs ≤ fuel → wfMpList vs = true →
    decodeN (mpDec fuel) (mpLen vs) (mpEncList vs ++ r) = some (vs, r)
  | .nil, fuel, r, _, _ => by
    rw [mpLen, mpEncList, List.nil_append, decodeN]
  | .cons v vs, fuel, r, hd, hw => by
    rw [mpDepthList] at hd
    rw [wfMpList, Bool.and_eq_true] at hw
    have ih1 := mpDec_mpEnc v fuel (mpEncList vs ++ r)
      (le_trans (le_max_left _ _) hd) hw.1
    have ih2 := mpDecN_mpEncList vs fuel r
      (le_trans (le_max_right _ _) hd) hw.2
    rw [mpLen, mpEncList, List.append_assoc, decodeN]
    simp [ih1, ih2]
end

/-- C7: the wire codec round-trips: for every value of the supported
(modelled) universe on which `serialize` succeeds, `deserialize` applied to
the bytes `serialize` produced succeeds and returns the same value. -/
theorem codec_serialize_deserialize_roundtrip (v : MpValue)
    (h : wfMp v = true) : deserialize (serialize v) = some v := by
  rw [serialize, deserialize]
  have hd := mpDec_mpEnc v ((mpEnc v).length + 1) []
    (le_trans (mpDepth_le_length v) (Nat.le_succ _)) h
  rw [List.append_nil] at hd
  rw [hd]

/-- Witness for C7 at a concrete nested value. -/
theorem codec_serialize_deserialize_roundtrip_witness :
    deserialize (serialize (.arr (.cons (.uint 300)
        (.cons (.str [104, 105]) (.cons .nil (.cons (.bool true) .nil)))))) =
      some (.arr (.cons (.uint 300)
        (.cons (.str [104, 105]) (.cons .nil (.cons (.bool true) .nil))))) :=
  codec_serialize_deserialize_roundtrip
    (.arr (.cons (.uint 300)
      (.cons (.str [104, 105]) (.cons .nil (.cons (.bool true) .nil)))))
    (by decide)

end Plugy
